import Mathlib

/-!
Verification of the go-grab chunked download engine.

This file gives a shallow embedding, in Lean 4, of the parts of the
go-grab repository that the specification talks about: the MIME-type
extension table (pkg/files/files.go), the filename splitter
(splitLastDot), the chunk byte-range computation (Chunk.Download), the
per-chunk retry loop (FileInfo.DownloadChunk), the streaming retry loop
and strategy dispatch (downloadFile), the chunk-count bookkeeping
(FileInfo.DownloadInChunks), the capability probe (getFileInfo), and the
JSON metadata recorder (FileInfo.SaveMetaData / FileInfo.ReadMetaData,
including Go encoding/json's base64 treatment of byte slices).

Machine integers are modelled as Nat/Int; Go's float64 chunk arithmetic
(math.Ceil over exact integer inputs) is modelled as exact natural-number
ceiling division.  HTTP and filesystem effects are modelled by explicit
oracles: an attempt oracle maps the attempt number to the outcome of one
network call, and file contents are passed as values.
-/

/-! ### pkg/files/files.go -/

/-- Embedding of the `MimeToExt` map literal from pkg/files/files.go,
as an association list in source order.  Go map literals with constant
keys have distinct keys, which we re-check below (`mimeToExt_keys_nodup`). -/
def MimeToExt : List (String × String) :=
  [("image/jpeg", "jpg"),
   ("image/png", "png"),
   ("image/gif", "gif"),
   ("image/webp", "webp"),
   ("image/bmp", "bmp"),
   ("image/svg+xml", "svg"),
   ("image/tiff", "tiff"),
   ("image/vnd.microsoft.icon", "ico"),
   ("audio/mpeg", "mp3"),
   ("audio/wav", "wav"),
   ("audio/ogg", "ogg"),
   ("audio/webm", "webm"),
   ("audio/flac", "flac"),
   ("video/mp4", "mp4"),
   ("video/x-m4v", "m4v"),
   ("video/webm", "webm"),
   ("video/ogg", "ogv"),
   ("video/x-msvideo", "avi"),
   ("video/mpeg", "mpeg"),
   ("application/pdf", "pdf"),
   ("application/msword", "doc"),
   ("application/vnd.openxmlformats-officedocument.wordprocessingml.document", "docx"),
   ("application/vnd.ms-excel", "xls"),
   ("application/vnd.openxmlformats-officedocument.spreadsheetml.sheet", "xlsx"),
   ("application/vnd.ms-powerpoint", "ppt"),
   ("application/vnd.openxmlformats-officedocument.presentationml.presentation", "pptx"),
   ("text/plain", "txt"),
   ("text/html", "html"),
   ("text/css", "css"),
   ("text/javascript", "js"),
   ("application/json", "json"),
   ("application/xml", "xml"),
   ("application/x-yaml", "yaml"),
   ("application/x-sh", "sh"),
   ("application/x-httpd-php", "php"),
   ("application/zip", "zip"),
   ("application/x-rar-compressed", "rar"),
   ("application/x-7z-compressed", "7z"),
   ("application/gzip", "gz"),
   ("application/x-tar", "tar"),
   ("application/java-archive", "jar"),
   ("application/x-msdownload", "exe"),
   ("application/x-iso9660-image", "iso")]

/-- Embedding of `files.GetFileExtension`: look the MIME type up in
`MimeToExt`; if it exists return the mapped extension, else the default
`"bin"`. -/
def GetFileExtension (mimeType : String) : String :=
  (MimeToExt.lookup mimeType).getD "bin"

/-! ### splitLastDot (cmd, src/unnamed/part_000) -/

/-- Embedding of `splitLastDot` on character lists.  The Go code computes
`strings.LastIndex(s, ".")` and, when it is `-1`, returns `(s, "")`,
otherwise `(s[:index], s[index+1:])`.  This structural version returns
the same pair: it keeps consuming characters while a dot still occurs
later in the string, and splits at the final dot. -/
def splitLastDotL : List Char → List Char × List Char
  | [] => ([], [])
  | c :: t =>
    if '.' ∈ t then ((c :: (splitLastDotL t).1), (splitLastDotL t).2)
    else if c = '.' then ([], t)
    else (c :: t, [])

/-- The string-level `splitLastDot` (Go works on the string directly; since the
separator is the ASCII dot, the character-list view is faithful). -/
def splitLastDot (s : String) : String × String :=
  ((splitLastDotL s.toList).1.asString, (splitLastDotL s.toList).2.asString)

/-! ### Chunk boundaries (Chunk.Download) and chunk count
(FileInfo.DownloadInChunks) -/

/-- Embedding of the byte-range computation at the top of
`Chunk.Download`:

    c.Start = c.Index * int(chunkSize)
    c.End = c.Start + int(chunkSize) - 1
    if c.End >= int(size) { c.End = int(size - 1) }
    else if c.Index == 0 { c.Start = 0 }

For the chunk sizes actually used (positive integers) natural-number
arithmetic coincides with Go's int arithmetic. -/
def chunkDownloadBounds (index chunkSize size : Nat) : Nat × Nat :=
  if index * chunkSize + chunkSize - 1 ≥ size then (index * chunkSize, size - 1)
  else if index = 0 then (0, index * chunkSize + chunkSize - 1)
  else (index * chunkSize, index * chunkSize + chunkSize - 1)

/-- Embedding of `totalFileChunks := int(math.Ceil(float64(fi.Size) /
fi.ChunkSize))` in `FileInfo.DownloadInChunks`, as exact ceiling
division on naturals. -/
def totalFileChunks (size chunkSize : Nat) : Nat :=
  (size + chunkSize - 1) / chunkSize

/-- Embedding of the return value of `FileInfo.DownloadInChunks`: the
function allocates `chunks := make([]*Chunk, totalFileChunks)` and ends
with `return len(chunks) - totalFileChunks`. -/
def DownloadInChunks (size chunkSize : Nat) : Int :=
  (totalFileChunks size chunkSize : Int) - (totalFileChunks size chunkSize : Int)

/-! ### Per-chunk retry loop (FileInfo.DownloadChunk, Chunk.WriteToFile)

One call of `c.Download` is modelled by an oracle
`attempt : Nat → Option (List Nat) × Bool` mapping the attempt number to
the pair (value of `c.Data` after the call, whether the call returned an
error).  `none` models a nil `Data` slice (the call failed before the
body read), `some bs` a byte slice `bs`. -/

/-- State after the retry loop of `FileInfo.DownloadChunk`. -/
structure ChunkLoopResult where
  data : Option (List Nat)
  attempts : Nat
  sleepSeconds : Nat

/-- Embedding of the loop

    for r := 0; r < maxRetries; r++ {
        err := c.Download(url, fi.ChunkSize, fi.Size)
        if err == nil && c.Data != nil { break }
        log.Printf(...)
        time.Sleep(2 * time.Second)
    }

The remaining iteration indices are carried in the list argument; each
failed iteration sleeps 2 seconds. -/
def chunkRetryGo (attempt : Nat → Option (List Nat) × Bool) :
    Option (List Nat) → Nat → Nat → List Nat → ChunkLoopResult
  | data, att, slp, [] => ⟨data, att, slp⟩
  | _, att, slp, r :: rest =>
    if (attempt r).2 = false ∧ (attempt r).1 ≠ none then ⟨(attempt r).1, att + 1, slp⟩
    else chunkRetryGo attempt (attempt r).1 (att + 1) (slp + 2) rest

/-- The retry loop of `FileInfo.DownloadChunk` with `maxRetries = 3`:
`c := &Chunk{Index: i}` starts with nil `Data`. -/
def chunkRetry (attempt : Nat → Option (List Nat) × Bool) : ChunkLoopResult :=
  chunkRetryGo attempt none 0 0 [0, 1, 2]

/-- Observable outcome of one `FileInfo.DownloadChunk` call:
the final `c.Data`, how many `c.Download` attempts ran, the total
seconds slept, how many times the chunk was appended to
`fi.Metadata.MissedChunks`, and whether `log.Fatal` was reached. -/
structure DownloadChunkResult where
  data : Option (List Nat)
  attempts : Nat
  sleepSeconds : Nat
  missedAppends : Nat
  fatal : Bool

/-- Embedding of `FileInfo.DownloadChunk` after the retry loop:

    if len(c.Data) == 0 { fi.Metadata.MissedChunks = append(...); log.Printf(...) }
    err := c.WriteToFile(fi.File)
    if err != nil { log.Fatal("Failed to write to file: ", err) }

`Chunk.WriteToFile` returns an error when `c.Data == nil` (its first
guard), and otherwise errors only if the positioned write or the stat
fails, which the `writeOk` parameter models. -/
def DownloadChunk (attempt : Nat → Option (List Nat) × Bool) (writeOk : Bool) :
    DownloadChunkResult :=
  ⟨(chunkRetry attempt).data,
   (chunkRetry attempt).attempts,
   (chunkRetry attempt).sleepSeconds,
   if ((chunkRetry attempt).data.getD []).isEmpty then 1 else 0,
   (chunkRetry attempt).data.isNone || !writeOk⟩

/-- A concrete attempt oracle: the first two `c.Download` calls fail
without touching `c.Data`, the third succeeds with one byte. -/
def attemptThirdTime : Nat → Option (List Nat) × Bool :=
  fun r => if r = 2 then (some [65], false) else (none, true)

/-! ### Streaming retry loop and strategy dispatch (downloadFile) -/

/-- State after the streaming retry loop in `downloadFile`. -/
structure StreamResult where
  attempts : Nat
  sleepSeconds : Nat
  success : Bool
deriving DecidableEq

/-- Embedding of the unknown-size retry loop in `downloadFile`:

    maxRetries := 3
    for r := 0; r < maxRetries; r++ {
        r++
        bytesWritten, err := fi.StreamBufInChunks(url)
        if err == nil && bytesWritten != 0 { break }
        log.Printf(...)
        time.Sleep(2 * time.Second)
    }

Note the loop variable is incremented once inside the body and once by
the for post-statement, so each failed iteration advances `r` by 2.
The oracle `attempt` maps the number of prior attempts to the pair
(bytesWritten, whether an error was returned).  The fuel argument only
bounds the recursion; starting from `r = 0` with fuel 4 the loop always
exits through its own condition. -/
def streamLoopGo (attempt : Nat → Int × Bool) : Nat → Nat → Nat → Nat → StreamResult
  | 0, _, att, slp => ⟨att, slp, false⟩
  | fuel + 1, r, att, slp =>
    if r < 3 then
      if (attempt att).2 = false ∧ (attempt att).1 ≠ 0 then ⟨att + 1, slp, true⟩
      else streamLoopGo attempt fuel (r + 2) (att + 1) (slp + 2)
    else ⟨att, slp, false⟩

/-- The streaming retry loop, started at `r = 0`. -/
def streamRetry (attempt : Nat → Int × Bool) : StreamResult :=
  streamLoopGo attempt 4 0 0 0

/-- Whether a run of `downloadFile` reaches `log.Fatal`/`os.Exit` or
falls through to the final success message. -/
inductive RunOutcome where
  | fatalExit
  | success
deriving DecidableEq

/-- Embedding of the `fi.Size <= 0` branch of `downloadFile` together
with its continuation.  After the retry loop nothing inspects the loop's
error or byte count: the enclosing function unconditionally proceeds to
the metadata block and the success message (the only `log.Fatal` after
the loop re-checks the `err` variable last assigned by `fi.CreateFile`,
which was already checked to be nil).  So on this path the run outcome
is `success` regardless of the loop result. -/
def downloadFileUnknownSize (attempt : Nat → Int × Bool) : RunOutcome × StreamResult :=
  (RunOutcome.success, streamRetry attempt)

/-- The three ways `downloadFile` can proceed after the probe: the
streaming branch (`fi.Size <= 0`), the chunked branch
(`fi.AcceptsRanges`), or — because the if/else-if chain has no final
else — no download at all. -/
inductive Strategy where
  | stream
  | chunked
  | skip
deriving DecidableEq

/-- Embedding of the strategy dispatch in `downloadFile`:

    if fi.Size <= 0 { ...streaming retry loop... }
    else if fi.AcceptsRanges { ...fi.DownloadInChunks(url)... }

with no else branch. -/
def chooseStrategy (size : Int) (acceptsRanges : Bool) : Strategy :=
  if size ≤ 0 then Strategy.stream
  else if acceptsRanges then Strategy.chunked
  else Strategy.skip

/-! ### JSON metadata recorder (FileInfo.SaveMetaData / FileInfo.ReadMetaData)

`SaveMetaData` runs `json.NewEncoder(file).Encode(d)` on a
`*FileMetadata`; `ReadMetaData` runs `json.NewDecoder(file).Decode(&m)`
and returns nil on any open or decode failure.  We model JSON documents
as values of an inductive `Json` type; Go's encoding of a `[]byte` field
as a base64 (StdEncoding) JSON string is modelled by an executable
base64 codec over byte lists. -/

/-- A JSON value.  `num` carries an integer because every number the
encoder emits for this data model is an int/int64 field. -/
inductive Json where
  | null
  | str (s : String)
  | num (n : Int)
  | arr (xs : List Json)
  | obj (kvs : List (String × Json))

/-- The standard base64 alphabet used by Go's `encoding/base64.StdEncoding`. -/
def b64Alphabet : List Char :=
  "ABCDEFGHIJKLMNOPQRSTUVWXYZabcdefghijklmnopqrstuvwxyz0123456789+/".toList

/-- The character encoding a 6-bit group. -/
def b64Char (n : Nat) : Char := b64Alphabet.getD n '='

/-- Position of a character in the base64 alphabet. -/
def b64IndexAux : List Char → Nat → Char → Option Nat
  | [], _, _ => none
  | a :: t, n, c => if a = c then some n else b64IndexAux t (n + 1) c

/-- Decode one base64 character to its 6-bit value. -/
def b64Index (c : Char) : Option Nat := b64IndexAux b64Alphabet 0 c

/-- base64 (StdEncoding) encoding of a byte list: three bytes become
four characters, a trailing group of one or two bytes is padded with
`'='`. -/
def b64Encode : List Nat → List Char
  | [] => []
  | [a] => [b64Char (a / 4), b64Char (a % 4 * 16), '=', '=']
  | [a, b] => [b64Char (a / 4), b64Char (a % 4 * 16 + b / 16), b64Char (b % 16 * 4), '=']
  | a :: b :: c :: t =>
    b64Char (a / 4) :: b64Char (a % 4 * 16 + b / 16) ::
      b64Char (b % 16 * 4 + c / 64) :: b64Char (c % 64) :: b64Encode t

/-- Decoding of the final four-character base64 block, handling the two
padded forms. -/
def b64DecodeLast (c1 c2 c3 c4 : Char) : Option (List Nat) :=
  if c3 = '=' then
    if c4 = '=' then
      match b64Index c1, b64Index c2 with
      | some s1, some s2 => some [s1 * 4 + s2 / 16]
      | _, _ => none
    else none
  else if c4 = '=' then
    match b64Index c1, b64Index c2, b64Index c3 with
    | some s1, some s2, some s3 => some [s1 * 4 + s2 / 16, s2 % 16 * 16 + s3 / 4]
    | _, _, _ => none
  else
    match b64Index c1, b64Index c2, b64Index c3, b64Index c4 with
    | some s1, some s2, some s3, some s4 =>
      some [s1 * 4 + s2 / 16, s2 % 16 * 16 + s3 / 4, s3 % 4 * 64 + s4]
    | _, _, _, _ => none

/-- base64 (StdEncoding) decoding: the input must be a sequence of
four-character blocks; padding may appear only in the last block.
Returns `none` on any malformed input, as Go's decoder errors. -/
def b64Decode : List Char → Option (List Nat)
  | [] => some []
  | c1 :: c2 :: c3 :: c4 :: t =>
    if t = [] then b64DecodeLast c1 c2 c3 c4
    else
      match b64Index c1, b64Index c2, b64Index c3, b64Index c4, b64Decode t with
      | some s1, some s2, some s3, some s4, some rest =>
        some ((s1 * 4 + s2 / 16) :: (s2 % 16 * 16 + s3 / 4) :: (s3 % 4 * 64 + s4) :: rest)
      | _, _, _, _, _ => none
  | _ => none

/-- A Go `Chunk` value as serialized: `Data []byte` (nil modelled as
`none`), `Start`, `End`, `Index` ints.  The struct has no json tags, so
the JSON keys are the Go field names. -/
structure Chunk where
  data : Option (List Nat)
  start : Int
  endOff : Int
  index : Int

/-- A Go `FileMetadata` value: json tags `url`, `missed_chunks`,
`total_size`, `downloaded_size`. -/
structure FileMetadata where
  url : String
  missedChunks : List Chunk
  totalSize : Int
  downloadedSize : Int

/-- Go `encoding/json` marshalling of a `[]byte`: nil becomes JSON null,
a byte slice becomes its base64 string. -/
def encodeBytes : Option (List Nat) → Json
  | none => Json.null
  | some bs => Json.str (b64Encode bs).asString

/-- Go `encoding/json` unmarshalling into a `[]byte`: null leaves the
slice nil, a string is base64-decoded, anything else is an error. -/
def decodeBytes : Json → Option (Option (List Nat))
  | Json.null => some none
  | Json.str s => (b64Decode s.toList).map some
  | _ => none

/-- Marshalling of a `Chunk` (fields in declaration order). -/
def encodeChunk (c : Chunk) : Json :=
  Json.obj [("Data", encodeBytes c.data), ("Start", Json.num c.start),
            ("End", Json.num c.endOff), ("Index", Json.num c.index)]

/-- Marshalling of a `FileMetadata` (fields in declaration order,
tagged keys).  A chunk list marshals as a JSON array. -/
def encodeFileMetadata (m : FileMetadata) : Json :=
  Json.obj [("url", Json.str m.url),
            ("missed_chunks", Json.arr (m.missedChunks.map encodeChunk)),
            ("total_size", Json.num m.totalSize),
            ("downloaded_size", Json.num m.downloadedSize)]

/-- Reading one struct field while unmarshalling: a missing key leaves
the zero value, a present key must decode. -/
def getField (kvs : List (String × Json)) (k : String) (dflt : α)
    (dec : Json → Option α) : Option α :=
  match kvs.lookup k with
  | none => some dflt
  | some j => dec j

/-- Unmarshalling a JSON value into an int field. -/
def decodeInt : Json → Option Int
  | Json.num n => some n
  | _ => none

/-- Unmarshalling a JSON value into a string field. -/
def decodeString : Json → Option String
  | Json.str s => some s
  | _ => none

/-- Unmarshalling a JSON value into a `Chunk`. -/
def decodeChunk : Json → Option Chunk
  | Json.obj kvs => do
    let d ← getField kvs "Data" none decodeBytes
    let s ← getField kvs "Start" 0 decodeInt
    let e ← getField kvs "End" 0 decodeInt
    let i ← getField kvs "Index" 0 decodeInt
    pure ⟨d, s, e, i⟩
  | _ => none

/-- Unmarshalling a JSON value into a `[]Chunk`: null leaves the slice
nil, an array decodes elementwise. -/
def decodeChunkList : Json → Option (List Chunk)
  | Json.null => some []
  | Json.arr xs => xs.mapM decodeChunk
  | _ => none

/-- Unmarshalling a JSON value into a `*FileMetadata` target.  A JSON
null leaves the pointer nil — which `ReadMetaData`'s caller sees as an
absent result — so it maps to `none` here as well. -/
def decodeFileMetadata : Json → Option FileMetadata
  | Json.obj kvs => do
    let u ← getField kvs "url" "" decodeString
    let mc ← getField kvs "missed_chunks" [] decodeChunkList
    let ts ← getField kvs "total_size" 0 decodeInt
    let ds ← getField kvs "downloaded_size" 0 decodeInt
    pure ⟨u, mc, ts, ds⟩
  | _ => none

/-- Embedding of `FileInfo.SaveMetaData`: the JSON document written to
the side file is the encoding of the metadata value. -/
def SaveMetaData (m : FileMetadata) : Json := encodeFileMetadata m

/-- Embedding of `FileInfo.ReadMetaData`: the argument is the parsed
content of the side file, `none` standing for any open or JSON-parse
failure, in which case the function returns nil; otherwise the document
is unmarshalled, with nil returned on a decode failure. -/
def ReadMetaData : Option Json → Option FileMetadata
  | none => none
  | some j => decodeFileMetadata j

/-- All bytes of an optional byte slice are in range. -/
def bytesOk (d : Option (List Nat)) : Bool :=
  (d.getD []).all fun x => x < 256

/-- All byte payloads stored in a metadata value are in range (true of
every value the Go program can build, where `Data` is a `[]byte`). -/
def metadataOk (m : FileMetadata) : Bool :=
  m.missedChunks.all fun c => bytesOk c.data

/-- A concrete metadata value with two missed chunks, used to witness
the round-trip theorem. -/
def metadataExample : FileMetadata :=
  ⟨"https://example.com/f.bin", [⟨some [1, 2, 250], 0, 3, 0⟩, ⟨none, 4, 7, 1⟩], 8, 4⟩

/-! ### Capability probe (getFileInfo) -/

/-- The information `getFileInfo` extracts from the HTTP response it
settles on (HEAD, or the GET fallback): the status code, the filename
captured by the `filename="([^"]+)"` pattern from Content-Disposition
(`none` if the header has no match), the Content-Type header value
(`""` if absent), the Content-Length value when it parses as an integer
(`none` if absent or unparseable), and the Accept-Ranges header value. -/
structure Response where
  status : Nat
  filenameCD : Option String
  contentType : String
  contentLength : Option Int
  acceptRanges : String

/-- The descriptor built by `getFileInfo`: name, extension, size,
range-support flag and the initialized metadata record. -/
structure FileInfo where
  name : String
  ext : String
  size : Int
  acceptsRanges : Bool
  metadata : FileMetadata

/-- What `getFileInfo` returns to `downloadFile`: `(nil, error)` on a
hard failure, `(f, ErrRangeNotSupported)` as a soft failure, or
`(f, nil)`. -/
inductive GetFileInfoResult where
  | fatal (status : Nat)
  | rangeNotSupported (fi : FileInfo)
  | ok (fi : FileInfo)

/-- The descriptor as first initialized by `getFileInfo`: name
`"download"`, empty extension, size 0, ranges assumed accepted, and a
fresh metadata record for the URL. -/
def initialFileInfo (url : String) : FileInfo :=
  ⟨"download", "", 0, true, ⟨url, [], 0, 0⟩⟩

/-- The Content-Disposition step: when the regex captured a filename,
`f.Name, _ = splitLastDot(filename[1])` keeps only the stem. -/
def applyFilename (f : FileInfo) : Option String → FileInfo
  | some fn => ⟨(splitLastDot fn).1, f.ext, f.size, f.acceptsRanges, f.metadata⟩
  | none => f

/-- The Content-Type step: a non-empty header sets
`f.Ext = files.GetFileExtension(ct)`. -/
def applyContentType (f : FileInfo) (ct : String) : FileInfo :=
  if ct ≠ "" then ⟨f.name, GetFileExtension ct, f.size, f.acceptsRanges, f.metadata⟩
  else f

/-- The Content-Length step: a parseable header sets `f.Size` and
`f.Metadata.TotalSize`. -/
def applyContentLength (f : FileInfo) : Option Int → FileInfo
  | some s =>
    ⟨f.name, f.ext, s, f.acceptsRanges,
     ⟨f.metadata.url, f.metadata.missedChunks, s, f.metadata.downloadedSize⟩⟩
  | none => f

/-- The final Accept-Ranges step of `getFileInfo`: a header other than
exactly `"bytes"` clears `f.AcceptsRanges` and returns the descriptor
together with `ErrRangeNotSupported`; otherwise the descriptor is
returned without error. -/
def finishFileInfo (f : FileInfo) (acceptRanges : String) : GetFileInfoResult :=
  if acceptRanges ≠ "bytes" then
    GetFileInfoResult.rangeNotSupported ⟨f.name, f.ext, f.size, false, f.metadata⟩
  else GetFileInfoResult.ok f

/-- Embedding of `getFileInfo`: a status of 400 or above fails hard with
no descriptor; otherwise the descriptor is populated from the headers
and the Accept-Ranges check decides between the soft failure and the
plain return. -/
def getFileInfo (url : String) (r : Response) : GetFileInfoResult :=
  if 400 ≤ r.status then GetFileInfoResult.fatal r.status
  else
    finishFileInfo
      (applyContentLength
        (applyContentType (applyFilename (initialFileInfo url) r.filenameCD) r.contentType)
        r.contentLength)
      r.acceptRanges

/-!
## Theorems
-/

/-- Claim C10: for every file size and chunk size, `DownloadInChunks`
returns `len(chunks) - totalFileChunks = 0`, where `chunks` was
allocated with exactly `totalFileChunks` slots — the chunked path never
reports the number of bytes written to the caller. -/
theorem DownloadInChunks_returns_zero :
    ∀ size chunkSize : Nat, DownloadInChunks size chunkSize = 0 := by
  intro s c
  simp [DownloadInChunks]

/-- Claim C4 (counterevidence): with a known size (here 1) and no range
support, `downloadFile`'s if/else-if chain selects neither the
streaming branch nor the chunked branch — the body is never downloaded,
contradicting the claim that this case is routed to the streaming
path. -/
theorem chooseStrategy_known_size_no_ranges :
    chooseStrategy 1 false = Strategy.skip ∧ Strategy.skip ≠ Strategy.stream := by
  decide

/-- Claim C2 (counterevidence): when all three `c.Download` attempts
fail leaving `Data` nil, `DownloadChunk` does append the chunk to
`MissedChunks` exactly once (`missedAppends = 1`), but it then passes
the nil-`Data` chunk to `Chunk.WriteToFile`, whose error guard fires,
and the resulting `log.Fatal` aborts the whole process
(`fatal = true`) — the outcome is not non-fatal as claimed. -/
theorem DownloadChunk_all_fail_fatal :
    DownloadChunk (fun _ => (none, true)) true = ⟨none, 3, 6, 1, true⟩ := by
  rfl

/-- Claim C3 (counterevidence): on the unknown-size path with every
streaming attempt failing, the retry loop performs only 2 attempts (the
loop variable is incremented twice per iteration), not the claimed 3,
and the run still ends in `RunOutcome.success` — no fatal error is
surfaced to the caller after the final attempt. -/
theorem downloadFile_unknownSize_all_fail :
    downloadFileUnknownSize (fun _ => (0, true)) =
      (RunOutcome.success, ⟨2, 4, false⟩) := by
  rfl

/-- The first component of `chunkDownloadBounds` is always
`index * chunkSize` (the index-0 special case rewrites the start to the
value it already has). -/
theorem chunkDownloadBounds_fst (index chunkSize size : Nat) :
    (chunkDownloadBounds index chunkSize size).1 = index * chunkSize := by
  unfold chunkDownloadBounds
  split
  · rfl
  · split
    · rename_i h0
      simp [h0]
    · rfl

/-- The second component of `chunkDownloadBounds` is the clamped end
offset `min (start + chunkSize - 1) (size - 1)`. -/
theorem chunkDownloadBounds_snd (index chunkSize size : Nat) :
    (chunkDownloadBounds index chunkSize size).2 =
      min (index * chunkSize + chunkSize - 1) (size - 1) := by
  unfold chunkDownloadBounds
  split
  · rename_i h
    simp only
    omega
  · rename_i h
    split
    · simp only
      omega
    · simp only
      omega

/-- For positive size and chunk size, the ceiling chunk count is one
more than `(size - 1) / chunkSize`. -/
theorem totalFileChunks_eq (size chunkSize : Nat) (hs : 0 < size) (hc : 0 < chunkSize) :
    totalFileChunks size chunkSize = (size - 1) / chunkSize + 1 := by
  unfold totalFileChunks
  have h : size + chunkSize - 1 = (size - 1) + chunkSize := by omega
  rw [h, Nat.add_div_right _ hc]

/-- An index is below the chunk count exactly when its start offset is
inside the file. -/
theorem lt_totalFileChunks_iff (size chunkSize i : Nat) (hs : 0 < size) (hc : 0 < chunkSize) :
    i < totalFileChunks size chunkSize ↔ i * chunkSize < size := by
  rw [totalFileChunks_eq size chunkSize hs hc, Nat.lt_succ_iff,
    Nat.le_div_iff_mul_le hc]
  omega

/-- Claim C1: for every total size > 0 and chunk size > 0, with
`chunkCount = ceil(size / chunkSize)`, the chunk computed by
`Chunk.Download` for each index `i` in `[0, chunkCount)` has
`start = i * chunkSize` (so `start_0 = 0`) and
`end = min (start + chunkSize - 1) (size - 1)`, and the inclusive
ranges partition `[0, size)`: every offset below `size` lies in exactly
one chunk's range. -/
theorem chunk_ranges_partition (size chunkSize : Nat) (hs : 0 < size) (hc : 0 < chunkSize) :
    (∀ i, i < totalFileChunks size chunkSize →
      (chunkDownloadBounds i chunkSize size).1 = i * chunkSize ∧
      (chunkDownloadBounds i chunkSize size).2 =
        min (i * chunkSize + chunkSize - 1) (size - 1)) ∧
    (∀ off, off < size →
      ∃! i, i < totalFileChunks size chunkSize ∧
        (chunkDownloadBounds i chunkSize size).1 ≤ off ∧
        off ≤ (chunkDownloadBounds i chunkSize size).2) := by
  constructor
  · intro i _
    exact ⟨chunkDownloadBounds_fst i chunkSize size, chunkDownloadBounds_snd i chunkSize size⟩
  · intro off hoff
    have hdm := Nat.div_add_mod off chunkSize
    have hml : off % chunkSize < chunkSize := Nat.mod_lt _ hc
    have hmc : chunkSize * (off / chunkSize) = off / chunkSize * chunkSize :=
      Nat.mul_comm _ _
    refine ⟨off / chunkSize, ⟨?_, ?_, ?_⟩, ?_⟩
    · rw [lt_totalFileChunks_iff size chunkSize _ hs hc]
      omega
    · rw [chunkDownloadBounds_fst]
      omega
    · rw [chunkDownloadBounds_snd]
      omega
    · rintro j ⟨hj, hjs, hje⟩
      rw [chunkDownloadBounds_fst] at hjs
      rw [chunkDownloadBounds_snd] at hje
      have hle : j ≤ off / chunkSize := (Nat.le_div_iff_mul_le hc).mpr hjs
      have hlt : off / chunkSize < j + 1 := by
        rw [Nat.div_lt_iff_lt_mul hc]
        have : off < j * chunkSize + chunkSize := by omega
        calc off < j * chunkSize + chunkSize := this
          _ = (j + 1) * chunkSize := by ring
      omega

/-- Witness for C1 at the concrete input size 10, chunk size 4. -/
theorem chunk_ranges_partition_witness :
    (∀ i, i < totalFileChunks 10 4 →
      (chunkDownloadBounds i 4 10).1 = i * 4 ∧
      (chunkDownloadBounds i 4 10).2 = min (i * 4 + 4 - 1) (10 - 1)) ∧
    (∀ off, off < 10 →
      ∃! i, i < totalFileChunks 10 4 ∧
        (chunkDownloadBounds i 4 10).1 ≤ off ∧
        off ≤ (chunkDownloadBounds i 4 10).2) :=
  chunk_ranges_partition 10 4 (by decide) (by decide)

/-- Claim C5: a chunk whose `Download` fails on the first two attempts
(leaving `Data` nil) and succeeds on the third ends with the populated
payload, is not recorded in `MissedChunks`, and runs exactly 3 attempts
with one fixed 2-second sleep after each of the two failures. -/
theorem DownloadChunk_third_attempt_success (attempt : Nat → Option (List Nat) × Bool)
    (d : List Nat) (writeOk : Bool)
    (h0 : attempt 0 = (none, true)) (h1 : attempt 1 = (none, true))
    (h2 : attempt 2 = (some d, false)) (hd : d ≠ []) :
    (DownloadChunk attempt writeOk).data = some d ∧
    (DownloadChunk attempt writeOk).missedAppends = 0 ∧
    (DownloadChunk attempt writeOk).attempts = 3 ∧
    (DownloadChunk attempt writeOk).sleepSeconds = 4 := by
  have hde : d.isEmpty = false := by
    cases d
    · exact absurd rfl hd
    · rfl
  have hr : chunkRetry attempt = ⟨some d, 3, 4⟩ := by
    simp [chunkRetry, chunkRetryGo, h0, h1, h2]
  simp [DownloadChunk, hr, hde]

/-- Witness for C5 with the concrete oracle `attemptThirdTime`. -/
theorem DownloadChunk_third_attempt_success_witness :
    (DownloadChunk attemptThirdTime true).data = some [65] ∧
    (DownloadChunk attemptThirdTime true).missedAppends = 0 ∧
    (DownloadChunk attemptThirdTime true).attempts = 3 ∧
    (DownloadChunk attemptThirdTime true).sleepSeconds = 4 :=
  DownloadChunk_third_attempt_success attemptThirdTime [65] true rfl rfl rfl (by decide)

/-- The keys of the `MimeToExt` table are distinct (as Go's map literal
guarantees). -/
theorem mimeToExt_keys_nodup : (MimeToExt.map Prod.fst).Nodup := by
  decide

/-- In an association list with distinct keys, `lookup` finds every
stored pair. -/
theorem lookup_eq_some_of_mem (l : List (String × String))
    (hnd : (l.map Prod.fst).Nodup) (k v : String) (h : (k, v) ∈ l) :
    l.lookup k = some v := by
  induction l with
  | nil => cases h
  | cons p t ih =>
    obtain ⟨k', v'⟩ := p
    rw [List.map_cons, List.nodup_cons] at hnd
    rcases List.mem_cons.mp h with h1 | h1
    · cases h1
      simp [List.lookup]
    · have hk : (k == k') = false := by
        refine beq_eq_false_iff_ne.mpr fun he => hnd.1 ?_
        have hm : k ∈ t.map Prod.fst := List.mem_map_of_mem Prod.fst h1
        rwa [he] at hm
      simp only [List.lookup, hk]
      exact ih hnd.2 h1

/-- Lookup misses every key that is not stored. -/
theorem lookup_eq_none_of_not_mem (l : List (String × String)) (s : String)
    (h : s ∉ l.map Prod.fst) : l.lookup s = none := by
  induction l with
  | nil => rfl
  | cons p t ih =>
    obtain ⟨k', v'⟩ := p
    rw [List.map_cons, List.mem_cons] at h
    push_neg at h
    have hk : (s == k') = false := beq_eq_false_iff_ne.mpr h.1
    simp only [List.lookup, hk]
    exact ih h.2

/-- Claim C8: `GetFileExtension` returns the mapped extension for every
MIME type in the `MimeToExt` table, and the fixed fallback `"bin"` for
every string whose key is not in the table. -/
theorem GetFileExtension_spec :
    (∀ k v, (k, v) ∈ MimeToExt → GetFileExtension k = v) ∧
    (∀ s, s ∉ MimeToExt.map Prod.fst → GetFileExtension s = "bin") := by
  constructor
  · intro k v h
    unfold GetFileExtension
    rw [lookup_eq_some_of_mem MimeToExt mimeToExt_keys_nodup k v h]
    rfl
  · intro s h
    unfold GetFileExtension
    rw [lookup_eq_none_of_not_mem MimeToExt s h]
    rfl

/-- Witness for C8: a mapped MIME type and an unmapped one. -/
theorem GetFileExtension_spec_witness :
    GetFileExtension "image/png" = "png" ∧
      GetFileExtension "application/vnd.unknown" = "bin" :=
  ⟨GetFileExtension_spec.1 "image/png" "png" (by decide),
   GetFileExtension_spec.2 "application/vnd.unknown" (by decide)⟩

/-- A string without a dot is returned whole with an empty extension. -/
theorem splitLastDotL_no_dot (l : List Char) (h : '.' ∉ l) :
    splitLastDotL l = (l, []) := by
  induction l with
  | nil => rfl
  | cons c t ih =>
    have hdt : '.' ∉ t := fun m => h (List.mem_cons_of_mem _ m)
    have hc : ¬c = '.' := fun e => h (by rw [e]; exact List.mem_cons_self _ _)
    simp [splitLastDotL, hdt, hc]

/-- A string with a dot splits at the last dot: the extension holds no
dot, and stem, dot and extension reassemble the input. -/
theorem splitLastDotL_dot (l : List Char) (h : '.' ∈ l) :
    '.' ∉ (splitLastDotL l).2 ∧
      (splitLastDotL l).1 ++ '.' :: (splitLastDotL l).2 = l := by
  induction l with
  | nil => cases h
  | cons c t ih =>
    by_cases ht : '.' ∈ t
    · have ih' := ih ht
      simp only [splitLastDotL, if_pos ht]
      refine ⟨ih'.1, ?_⟩
      simp only [List.cons_append]
      rw [ih'.2]
    · have hc : c = '.' := by
        rcases List.mem_cons.mp h with h1 | h1
        · exact h1.symm
        · exact absurd h1 ht
      simp only [splitLastDotL, if_neg ht, if_pos hc]
      exact ⟨ht, by rw [hc]; rfl⟩

/-- Round trip between strings and their character lists. -/
theorem asString_toList_eq (s : String) : s.toList.asString = s := by
  cases s
  rfl

/-- Splicing two character lists around a dot at the string level. -/
theorem asString_append_dot (p1 p2 : List Char) :
    p1.asString ++ "." ++ p2.asString = (p1 ++ '.' :: p2).asString := by
  show String.mk ((p1 ++ ['.']) ++ p2) = String.mk (p1 ++ '.' :: p2)
  simp

/-- Claim C9: for every string `s`, `splitLastDot s = (stem, ext)`
satisfies: if `s` contains no dot then `stem = s` and `ext = ""`;
otherwise `ext` contains no dot and `stem ++ "." ++ ext = s`. -/
theorem splitLastDot_spec (s : String) :
    ('.' ∉ s.toList → splitLastDot s = (s, "")) ∧
    ('.' ∈ s.toList →
      '.' ∉ (splitLastDot s).2.toList ∧
      (splitLastDot s).1 ++ "." ++ (splitLastDot s).2 = s) := by
  constructor
  · intro h
    unfold splitLastDot
    rw [splitLastDotL_no_dot s.toList h, asString_toList_eq]
    rfl
  · intro h
    have h2 := splitLastDotL_dot s.toList h
    constructor
    · show '.' ∉ ((splitLastDotL s.toList).2.asString).toList
      exact h2.1
    · show (splitLastDotL s.toList).1.asString ++ "." ++
        (splitLastDotL s.toList).2.asString = s
      rw [asString_append_dot, h2.2, asString_toList_eq]

/-- Witness for C9 at the strings `"a.b"` (dot case) and `"ab"`
(dot-free case). -/
theorem splitLastDot_spec_witness :
    ('.' ∉ (splitLastDot "a.b").2.toList ∧
      (splitLastDot "a.b").1 ++ "." ++ (splitLastDot "a.b").2 = "a.b") ∧
    splitLastDot "ab" = ("ab", "") :=
  ⟨(splitLastDot_spec "a.b").2 (by decide), (splitLastDot_spec "ab").1 (by decide)⟩

/-- Claim C7: `getFileInfo` fails hard with no descriptor whenever the
response status is at least 400; and when the status is below 400 but
the Accept-Ranges header is not exactly `"bytes"`, it returns the
`ErrRangeNotSupported` soft failure together with a descriptor that has
ranges marked unsupported and is otherwise fully populated from the
headers (stem of the captured filename, mapped extension, parsed
size, initialized metadata). -/
theorem getFileInfo_spec (url : String) (r : Response) :
    (400 ≤ r.status → getFileInfo url r = GetFileInfoResult.fatal r.status) ∧
    (r.status < 400 → r.acceptRanges ≠ "bytes" →
      ∃ fi, getFileInfo url r = GetFileInfoResult.rangeNotSupported fi ∧
        fi.acceptsRanges = false ∧
        fi.name = (match r.filenameCD with
          | some fn => (splitLastDot fn).1
          | none => "download") ∧
        fi.ext = (if r.contentType = "" then "" else GetFileExtension r.contentType) ∧
        fi.size = r.contentLength.getD 0 ∧
        fi.metadata.totalSize = r.contentLength.getD 0 ∧
        fi.metadata.url = url) := by
  constructor
  · intro h
    simp [getFileInfo, h]
  · intro hlt hne
    unfold getFileInfo finishFileInfo
    rw [if_neg (by omega : ¬400 ≤ r.status), if_pos hne]
    refine ⟨_, rfl, rfl, ?_, ?_, ?_, ?_, ?_⟩ <;>
      obtain ⟨st, fn, ct, cl, ar⟩ := r <;>
      rcases fn with _ | fn <;> rcases cl with _ | cl <;>
      by_cases hct : ct = "" <;>
      simp [applyFilename, applyContentType, applyContentLength, initialFileInfo, hct]

/-- Witness for C7: a 404 probe fails hard; a 200 probe without range
support returns the populated descriptor with the soft failure. -/
theorem getFileInfo_spec_witness :
    getFileInfo "u" ⟨404, none, "", none, "bytes"⟩ = GetFileInfoResult.fatal 404 ∧
    (∃ fi, getFileInfo "u" ⟨200, some "report.pdf", "application/pdf", some 1234, "none"⟩ =
        GetFileInfoResult.rangeNotSupported fi ∧
      fi.acceptsRanges = false ∧
      fi.name = (match (some "report.pdf" : Option String) with
        | some fn => (splitLastDot fn).1
        | none => "download") ∧
      fi.ext = (if ("application/pdf" : String) = "" then ""
        else GetFileExtension "application/pdf") ∧
      fi.size = (some (1234 : Int)).getD 0 ∧
      fi.metadata.totalSize = (some (1234 : Int)).getD 0 ∧
      fi.metadata.url = "u") :=
  ⟨(getFileInfo_spec "u" ⟨404, none, "", none, "bytes"⟩).1 (by decide),
   (getFileInfo_spec "u" ⟨200, some "report.pdf", "application/pdf", some 1234, "none"⟩).2
     (by decide) (by decide)⟩

/-- Decoding a base64 alphabet character recovers its 6-bit value. -/
theorem b64Index_b64Char : ∀ n, n < 64 → b64Index (b64Char n) = some n := by
  decide

/-- No base64 alphabet character is the padding character. -/
theorem b64Char_ne_eq : ∀ n, n < 64 → b64Char n ≠ '=' := by
  decide

/-- The encoding of a nonempty byte list is nonempty. -/
theorem b64Encode_cons_ne_nil (a : Nat) (t : List Nat) : b64Encode (a :: t) ≠ [] := by
  match t with
  | [] => simp [b64Encode]
  | [b] => simp [b64Encode]
  | b :: c :: t' => simp [b64Encode]

/-- base64 round trip: decoding the encoding of any byte list gives the
list back. -/
theorem b64_roundtrip : ∀ l : List Nat, (∀ x ∈ l, x < 256) →
    b64Decode (b64Encode l) = some l
  | [], _ => rfl
  | [a], h => by
    have ha : a < 256 := h a (by simp)
    have h1 := b64Index_b64Char (a / 4) (by omega)
    have h2 := b64Index_b64Char (a % 4 * 16) (by omega)
    simp [b64Encode, b64Decode, b64DecodeLast, h1, h2]
    omega
  | [a, b], h => by
    have ha : a < 256 := h a (by simp)
    have hb : b < 256 := h b (by simp)
    have h1 := b64Index_b64Char (a / 4) (by omega)
    have h2 := b64Index_b64Char (a % 4 * 16 + b / 16) (by omega)
    have h3 := b64Index_b64Char (b % 16 * 4) (by omega)
    have hne : b64Char (b % 16 * 4) ≠ '=' := b64Char_ne_eq _ (by omega)
    simp [b64Encode, b64Decode, b64DecodeLast, h1, h2, h3, hne]
    omega
  | a :: b :: c :: t, h => by
    have ha : a < 256 := h a (by simp)
    have hb : b < 256 := h b (by simp)
    have hc : c < 256 := h c (by simp)
    have h1 := b64Index_b64Char (a / 4) (by omega)
    have h2 := b64Index_b64Char (a % 4 * 16 + b / 16) (by omega)
    have h3 := b64Index_b64Char (b % 16 * 4 + c / 64) (by omega)
    have h4 := b64Index_b64Char (c % 64) (by omega)
    have ih := b64_roundtrip t (fun x hx => h x (by simp [hx]))
    match t with
    | [] =>
      have hne3 : b64Char (b % 16 * 4 + c / 64) ≠ '=' := b64Char_ne_eq _ (by omega)
      have hne4 : b64Char (c % 64) ≠ '=' := b64Char_ne_eq _ (by omega)
      simp [b64Encode, b64Decode, b64DecodeLast, h1, h2, h3, h4, hne3, hne4]
      omega
    | x :: t' =>
      have hnn : b64Encode (x :: t') ≠ [] := b64Encode_cons_ne_nil x t'
      simp only [b64Encode, b64Decode] at ih ⊢
      simp [hnn, h1, h2, h3, h4, ih]
      omega

/-- Marshal/unmarshal round trip for a byte-slice field. -/
theorem decodeBytes_encodeBytes (d : Option (List Nat)) (h : bytesOk d = true) :
    decodeBytes (encodeBytes d) = some d := by
  cases d with
  | none => rfl
  | some bs =>
    have hb : ∀ x ∈ bs, x < 256 := by
      intro x hx
      have hh := List.all_eq_true.mp h x hx
      simpa using hh
    show decodeBytes (Json.str (b64Encode bs).asString) = some (some bs)
    simp only [decodeBytes]
    rw [show ((b64Encode bs).asString).toList = b64Encode bs from rfl,
      b64_roundtrip bs hb]
    rfl

/-- Marshal/unmarshal round trip for a `Chunk`. -/
theorem decodeChunk_encodeChunk (c : Chunk) (h : bytesOk c.data = true) :
    decodeChunk (encodeChunk c) = some c := by
  obtain ⟨d, s, e, i⟩ := c
  have hd : decodeBytes (encodeBytes d) = some d := decodeBytes_encodeBytes d h
  simp [encodeChunk, decodeChunk, getField, List.lookup, hd, decodeInt]

/-- Marshal/unmarshal round trip for a chunk list. -/
theorem mapM_decodeChunk (l : List Chunk) (h : ∀ c ∈ l, bytesOk c.data = true) :
    (l.map encodeChunk).mapM decodeChunk = some l := by
  induction l with
  | nil => rfl
  | cons c t ih =>
    rw [List.map_cons, List.mapM_cons, decodeChunk_encodeChunk c (h c (by simp)),
      ih fun c' hc' => h c' (by simp [hc'])]
    rfl

/-- Marshal/unmarshal round trip for a `FileMetadata`. -/
theorem decodeFileMetadata_encodeFileMetadata (m : FileMetadata)
    (h : metadataOk m = true) : decodeFileMetadata (encodeFileMetadata m) = some m := by
  obtain ⟨u, mc, ts, ds⟩ := m
  have hmc : (mc.map encodeChunk).mapM decodeChunk = some mc := by
    refine mapM_decodeChunk mc fun c hc => ?_
    exact List.all_eq_true.mp h c hc
  simp only [List.mapM] at hmc
  simp [encodeFileMetadata, decodeFileMetadata, getField, List.lookup, decodeString,
    decodeChunkList, decodeInt, hmc]

/-- Claim C6: saving any `TransferMetadata` value with `SaveMetaData`
and reloading it with `ReadMetaData` reproduces identical field values
(URL, sizes, and the missed-chunk list contents in order), and
`ReadMetaData` returns an absent result on any read or parse failure
instead of panicking. -/
theorem SaveMetaData_ReadMetaData_roundtrip :
    (∀ m : FileMetadata, metadataOk m = true →
      ReadMetaData (some (SaveMetaData m)) = some m) ∧
    ReadMetaData none = none ∧
    (∀ j : Json, decodeFileMetadata j = none → ReadMetaData (some j) = none) := by
  refine ⟨?_, rfl, ?_⟩
  · intro m h
    exact decodeFileMetadata_encodeFileMetadata m h
  · intro j h
    exact h

/-- Witness for C6 at a concrete metadata value with two missed
chunks. -/
theorem SaveMetaData_ReadMetaData_roundtrip_witness :
    metadataOk metadataExample = true ∧
    ReadMetaData (some (SaveMetaData metadataExample)) = some metadataExample :=
  ⟨rfl, SaveMetaData_ReadMetaData_roundtrip.1 metadataExample rfl⟩
